import Mathlib

/-!
Verification of the `fixedint` fixed-width integer library.

The development shallowly embeds `src/fixedint/fixedint.py`:

* A generated class (`FixedInt(size, signed)` returns a fresh or interned
  `int` subclass) is a `FixedIntTy` descriptor recording the class
  attributes `SIZE`, `SIGNED`, `MAX_VALUE`, `MIN_VALUE`.
* An instance of such a class is a `FixedIntInstance`: the underlying
  stored Python `int` value (`self.real` in the source, always the masked,
  non-negative `lower_bits`) together with its class descriptor.
* The singleton cache `FixedIntType._classes` is an association list.
* Python unbounded integers are `ℤ`; the masked stored value is `ℕ`.

Python operator conventions used throughout the embedding:
`x & ((1 << n) - 1)` is reduction modulo `2 ^ n` (non-negative, i.e.
`Int.emod`); `~x` is `-x - 1`; `//` is floor division (`Int.fdiv`);
`%` is floor-style modulus with the divisor's sign (`Int.fmod`);
`int()` on a real number truncates toward zero.
-/

/-- Descriptor of a class produced by the `FixedInt` factory: the class
attributes `SIZE`, `SIGNED`, `MAX_VALUE`, `MIN_VALUE` of the generated
`FixedIntInstance` class. -/
structure FixedIntTy where
  SIZE : ℕ
  SIGNED : Bool
  MAX_VALUE : ℤ
  MIN_VALUE : ℤ
deriving DecidableEq, Repr

/-- `calculate_max_value` from the factory body: `umax = (1 << size) - 1`;
when signed, `msb_mask = 1 << (size - 1)` and `tmax = msb_mask - 1`. -/
def calculate_max_value (size : ℕ) (signed : Bool) : ℤ :=
  let umax : ℤ := 2 ^ size - 1
  if signed then
    let msb_mask : ℤ := 2 ^ (size - 1)
    let tmax := msb_mask - 1
    tmax
  else
    umax

/-- `calculate_min_value` from the factory body:
`-(1 << (size - 1))` when signed, otherwise `0`. -/
def calculate_min_value (size : ℕ) (signed : Bool) : ℤ :=
  if signed then -(2 ^ (size - 1) : ℤ) else 0

/-- The class `FixedIntInstance` defined inside `FixedInt(size, signed)`,
as a descriptor holding its four class attributes. -/
def FixedIntInstance_class (size : ℕ) (signed : Bool) : FixedIntTy :=
  { SIZE := size
    SIGNED := signed
    MAX_VALUE := calculate_max_value size signed
    MIN_VALUE := calculate_min_value size signed }

/-- A runtime instance of a generated class: the Python object is an `int`
subclass whose stored integer value is the masked `lower_bits` from
`__new__` (always non-negative, read back as `self.real` in the source),
tagged with its class descriptor. -/
structure FixedIntInstance where
  ty : FixedIntTy
  raw : ℕ
deriving DecidableEq, Repr

/-- `FixedIntInstance.__new__`:
`lower_bits = int(value) & ((1 << size) - 1)`.  Masking an arbitrary
integer with the low `size` ones is reduction modulo `2 ^ size`
(`Int.emod`, non-negative for this positive modulus). -/
def FixedIntInstance.new (cls : FixedIntTy) (value : ℤ) : FixedIntInstance :=
  let lower_bits : ℕ := (value % 2 ^ cls.SIZE).toNat
  { ty := cls, raw := lower_bits }

/-- `FixedIntInstance.as_decimal`:
unsigned values decode to `self.real`; signed values test the most
significant bit with `self.real & msb_mask` and, when it is set, return
`-magnitude` where `magnitude = -self.real & all_ones` (masking with
`all_ones = (1 << size) - 1` is again reduction modulo `2 ^ size`). -/
def FixedIntInstance.as_decimal (self : FixedIntInstance) : ℤ :=
  if self.ty.SIGNED = false then
    (self.raw : ℤ)
  else
    let msb_mask : ℕ := 2 ^ (self.ty.SIZE - 1)
    let msb : ℕ := Nat.land self.raw msb_mask
    if msb ≠ 0 then
      let magnitude : ℕ := ((-(self.raw : ℤ)) % 2 ^ self.ty.SIZE).toNat
      let negated : ℤ := -(magnitude : ℤ)
      negated
    else
      (self.raw : ℤ)

/-- `operation_wrapper(left, right, binary_operation, cls)` in the case the
target class `cls` is a generated fixed class: it returns
`cls(binary_operation(left.real, right.real))`, i.e. constructs (and hence
masks) from the operation applied to the operands' stored values. -/
def operation_wrapper (left right : ℤ) (binary_operation : ℤ → ℤ → ℤ)
    (cls : FixedIntTy) : FixedIntInstance :=
  FixedIntInstance.new cls (binary_operation left right)

/-- `operation_wrapper(left, right, binary_operation, cls)` in the case the
target class `cls` is plain `int` (the reflected operators pass
`other.__class__`): `int(...)` on an integer is the identity, so no
masking happens. -/
def operation_wrapper_int (left right : ℤ) (binary_operation : ℤ → ℤ → ℤ) : ℤ :=
  binary_operation left right

/-- `__add__`: `operation_wrapper(self, other, lambda x, y: x + y,
self.__class__)` with a fixed right operand (`other.real` is its raw). -/
def FixedIntInstance.add (self other : FixedIntInstance) : FixedIntInstance :=
  operation_wrapper (self.raw : ℤ) (other.raw : ℤ) (fun x y => x + y) self.ty

/-- `__add__` with a plain-integer right operand (`other.real` is `other`). -/
def FixedIntInstance.addInt (self : FixedIntInstance) (other : ℤ) : FixedIntInstance :=
  operation_wrapper (self.raw : ℤ) other (fun x y => x + y) self.ty

/-- `__radd__` with a plain-integer left operand: `operation_wrapper(self,
other, lambda x, y: y + x, other.__class__)`, and `other.__class__` is
`int`. -/
def FixedIntInstance.radd (self : FixedIntInstance) (other : ℤ) : ℤ :=
  operation_wrapper_int (self.raw : ℤ) other (fun x y => y + x)

/-- `__sub__` between two fixed values. -/
def FixedIntInstance.sub (self other : FixedIntInstance) : FixedIntInstance :=
  operation_wrapper (self.raw : ℤ) (other.raw : ℤ) (fun x y => x - y) self.ty

/-- `__sub__` with a plain-integer right operand. -/
def FixedIntInstance.subInt (self : FixedIntInstance) (other : ℤ) : FixedIntInstance :=
  operation_wrapper (self.raw : ℤ) other (fun x y => x - y) self.ty

/-- `__rsub__` with a plain-integer left operand (returns plain `int`). -/
def FixedIntInstance.rsub (self : FixedIntInstance) (other : ℤ) : ℤ :=
  operation_wrapper_int (self.raw : ℤ) other (fun x y => y - x)

/-- `__mul__` between two fixed values. -/
def FixedIntInstance.mul (self other : FixedIntInstance) : FixedIntInstance :=
  operation_wrapper (self.raw : ℤ) (other.raw : ℤ) (fun x y => x * y) self.ty

/-- `__mul__` with a plain-integer right operand. -/
def FixedIntInstance.mulInt (self : FixedIntInstance) (other : ℤ) : FixedIntInstance :=
  operation_wrapper (self.raw : ℤ) other (fun x y => x * y) self.ty

/-- `__rmul__` with a plain-integer left operand (returns plain `int`). -/
def FixedIntInstance.rmul (self : FixedIntInstance) (other : ℤ) : ℤ :=
  operation_wrapper_int (self.raw : ℤ) other (fun x y => y * x)

/-- `__floordiv__` between two fixed values: Python `//` is floor
division, `Int.fdiv`. -/
def FixedIntInstance.floordiv (self other : FixedIntInstance) : FixedIntInstance :=
  operation_wrapper (self.raw : ℤ) (other.raw : ℤ) (fun x y => Int.fdiv x y) self.ty

/-- `__floordiv__` with a plain-integer right operand. -/
def FixedIntInstance.floordivInt (self : FixedIntInstance) (other : ℤ) : FixedIntInstance :=
  operation_wrapper (self.raw : ℤ) other (fun x y => Int.fdiv x y) self.ty

/-- `__rfloordiv__` with a plain-integer left operand (returns plain `int`). -/
def FixedIntInstance.rfloordiv (self : FixedIntInstance) (other : ℤ) : ℤ :=
  operation_wrapper_int (self.raw : ℤ) other (fun x y => Int.fdiv y x)

/-- `__mod__` between two fixed values: Python `%` is the floor-style
modulus `Int.fmod` (sign of the divisor). -/
def FixedIntInstance.mod (self other : FixedIntInstance) : FixedIntInstance :=
  operation_wrapper (self.raw : ℤ) (other.raw : ℤ) (fun x y => Int.fmod x y) self.ty

/-- `__mod__` with a plain-integer right operand. -/
def FixedIntInstance.modInt (self : FixedIntInstance) (other : ℤ) : FixedIntInstance :=
  operation_wrapper (self.raw : ℤ) other (fun x y => Int.fmod x y) self.ty

/-- `__rmod__` with a plain-integer left operand (returns plain `int`). -/
def FixedIntInstance.rmod (self : FixedIntInstance) (other : ℤ) : ℤ :=
  operation_wrapper_int (self.raw : ℤ) other (fun x y => Int.fmod y x)

/-- Python `int()` applied to an (idealised, exact) real quotient:
truncation toward zero.  `Int.tdiv` is T-division and `q.den` is positive,
so this truncates `q` toward zero. -/
def int_of_rat (q : ℚ) : ℤ := Int.tdiv q.num (q.den : ℤ)

/-- `__truediv__` between two fixed values, via `operation_wrapper` with
`lambda x, y: x / y`.  Python `/` is binary64 float division; it is
idealised here as the exact rational quotient, truncated toward zero by
the `int(value)` inside `__new__` and then masked.  The float rounding
itself is not modelled; the range facts proved below do not depend on
this idealisation, because `__new__` masks whatever integer it receives. -/
def FixedIntInstance.truediv (self other : FixedIntInstance) : FixedIntInstance :=
  FixedIntInstance.new self.ty (int_of_rat ((self.raw : ℚ) / (other.raw : ℚ)))

/-- `__neg__`: `twos_complement = ~self.real + 1`, then construction into
the same class.  Python `~x` is `-x - 1`. -/
def FixedIntInstance.neg (self : FixedIntInstance) : FixedIntInstance :=
  let twos_complement : ℤ := (-(self.raw : ℤ) - 1) + 1
  FixedIntInstance.new self.ty twos_complement

/-- `__abs__`: `self.__class__(abs(self.real))`, construction into the
same class from the absolute value of the stored value. -/
def FixedIntInstance.abs (self : FixedIntInstance) : FixedIntInstance :=
  FixedIntInstance.new self.ty |(self.raw : ℤ)|

/-- The `FixedIntType._classes` singleton cache, modelled as an
association list keyed by `(SIZE, SIGNED)`, most recent binding first. -/
abbrev Classes := List ((ℕ × Bool) × FixedIntTy)

/-- `FixedIntType.get_class`: `cls._classes.get((size, signed))`. -/
def get_class (classes : Classes) (size : ℕ) (signed : Bool) : Option FixedIntTy :=
  Option.map Prod.snd
    (List.find? (fun kv => decide (kv.1 = (size, signed))) classes)

/-- `FixedIntType.add_class`: stores `new_cls` under the key
`(new_cls.SIZE, new_cls.SIGNED)`. -/
def add_class (classes : Classes) (new_cls : FixedIntTy) : Classes :=
  ((new_cls.SIZE, new_cls.SIGNED), new_cls) :: classes

/-- Well-formedness of the cache, maintained by the factory: every entry
is stored under the key `(SIZE, SIGNED)` of its descriptor (the shape
`add_class` always produces). -/
def ClassesWF (classes : Classes) : Prop :=
  ∀ kv ∈ classes, kv.1 = (kv.2.SIZE, kv.2.SIGNED)

/-- A Python scalar passed as the `size` argument of `FixedInt`: either a
genuine `int` or a `float` (the test-suite passes `4.3`). -/
inductive PyScalar where
  | intVal : ℤ → PyScalar
  | floatVal : ℚ → PyScalar
deriving DecidableEq, Repr

/-- `isinstance(size, int)`. -/
def PyScalar.isinstance_int : PyScalar → Bool
  | .intVal _ => true
  | .floatVal _ => false

/-- The numeric value of the argument, for the `size > 0` comparison. -/
def PyScalar.toRat : PyScalar → ℚ
  | .intVal n => (n : ℚ)
  | .floatVal q => q

/-- The `FixedInt` class factory.  `raise ValueError` is modelled as
`none`.  On success it returns the resulting class together with the
updated `_classes` cache: the interned class when one exists for
`(size, signed)`, otherwise a freshly built `FixedIntInstance` class,
which is also interned via `add_class`. -/
def FixedInt (size : PyScalar) (signed : Bool) (classes : Classes) :
    Option (FixedIntTy × Classes) :=
  if ¬ (size.isinstance_int = true ∧ 0 < size.toRat) then
    none
  else
    match get_class classes size.toRat.num.toNat signed with
    | some cls => some (cls, classes)
    | none =>
      some (FixedIntInstance_class size.toRat.num.toNat signed,
        add_class classes (FixedIntInstance_class size.toRat.num.toNat signed))

/-- The concrete classes the test-suite works with (`Int8` in the tests;
named `Int8ty` here because Lean already has an `Int8`). -/
def Int8ty : FixedIntTy := FixedIntInstance_class 8 true

/-- 8-bit unsigned. -/
def UInt8ty : FixedIntTy := FixedIntInstance_class 8 false

/-- 12-bit unsigned. -/
def UInt12ty : FixedIntTy := FixedIntInstance_class 12 false

/-- The core invariant: the stored value is strictly below `2 ^ SIZE`
(it is non-negative by construction, being a `ℕ`). -/
def InRange (x : FixedIntInstance) : Prop := x.raw < 2 ^ x.ty.SIZE

instance (x : FixedIntInstance) : Decidable (InRange x) :=
  inferInstanceAs (Decidable (x.raw < 2 ^ x.ty.SIZE))

/-! ### Basic facts about construction -/

theorem FixedIntInstance.new_def (cls : FixedIntTy) (v : ℤ) :
    FixedIntInstance.new cls v = ⟨cls, (v % 2 ^ cls.SIZE).toNat⟩ := rfl

theorem FixedIntInstance.new_ty (cls : FixedIntTy) (v : ℤ) :
    (FixedIntInstance.new cls v).ty = cls := rfl

theorem FixedIntInstance.new_raw_coe (cls : FixedIntTy) (v : ℤ) :
    ((FixedIntInstance.new cls v).raw : ℤ) = v % 2 ^ cls.SIZE := by
  have hM : (0:ℤ) < 2 ^ cls.SIZE := by positivity
  exact Int.toNat_of_nonneg (Int.emod_nonneg v (by omega))

theorem FixedIntInstance.new_inRange (cls : FixedIntTy) (v : ℤ) :
    InRange (FixedIntInstance.new cls v) := by
  have hM : (0:ℤ) < 2 ^ cls.SIZE := by positivity
  have h1 : v % 2 ^ cls.SIZE < 2 ^ cls.SIZE := Int.emod_lt_of_pos v hM
  have hcast : ((2:ℤ)) ^ cls.SIZE = ((2 ^ cls.SIZE : ℕ) : ℤ) := by push_cast; ring
  show (v % 2 ^ cls.SIZE).toNat < 2 ^ cls.SIZE
  rw [hcast] at h1
  omega

theorem FixedIntInstance.new_raw_modeq (cls : FixedIntTy) (v : ℤ) :
    Int.ModEq (2 ^ cls.SIZE) ((FixedIntInstance.new cls v).raw : ℤ) v := by
  rw [FixedIntInstance.new_raw_coe]
  exact Int.emod_emod_of_dvd v dvd_rfl

/-! ### Decoding -/

theorem FixedIntInstance.as_decimal_def (x : FixedIntInstance) :
    x.as_decimal =
      if x.ty.SIGNED = false then (x.raw : ℤ)
      else if Nat.land x.raw (2 ^ (x.ty.SIZE - 1)) ≠ 0 then
        -((((-(x.raw : ℤ)) % 2 ^ x.ty.SIZE).toNat : ℤ))
      else (x.raw : ℤ) := rfl

theorem land_two_pow_ne_zero_iff (r i : ℕ) :
    Nat.land r (2 ^ i) ≠ 0 ↔ r.testBit i = true := by
  have h : Nat.land r (2 ^ i) = r &&& 2 ^ i := rfl
  rw [h, Nat.and_two_pow r i]
  cases hb : r.testBit i <;> simp

theorem testBit_msb_iff (w r : ℕ) (hw : 0 < w) (hr : r < 2 ^ w) :
    r.testBit (w - 1) = true ↔ 2 ^ (w - 1) ≤ r := by
  rw [Nat.testBit_to_div_mod]
  have hpow : 2 ^ (w - 1) * 2 = 2 ^ w := by
    rw [← pow_succ]
    congr 1
    omega
  have h2 : r / 2 ^ (w - 1) < 2 := by
    apply Nat.div_lt_of_lt_mul
    omega
  constructor
  · intro h
    simp only [decide_eq_true_eq] at h
    rcases Nat.lt_or_ge r (2 ^ (w - 1)) with h' | h'
    · rw [Nat.div_eq_of_lt h'] at h
      simp at h
    · exact h'
  · intro h
    have h1 : 1 ≤ r / 2 ^ (w - 1) :=
      (Nat.one_le_div_iff (Nat.pos_pow_of_pos _ (by norm_num))).mpr h
    interval_cases h' : r / 2 ^ (w - 1)
    simp

theorem emod_neg_of_msb (w r : ℕ) (hlo : 0 < r) (hhi : r < 2 ^ w) :
    (-(r : ℤ)) % 2 ^ w = 2 ^ w - r := by
  have hcast : ((2:ℤ)) ^ w = ((2 ^ w : ℕ) : ℤ) := by push_cast; ring
  have h : (-(r : ℤ)) % 2 ^ w = (-(r : ℤ) + 2 ^ w * 1) % 2 ^ w :=
    (Int.add_mul_emod_self_left (-(r : ℤ)) (2 ^ w) 1).symm
  rw [h]
  have hlt : -(r : ℤ) + 2 ^ w * 1 < 2 ^ w := by
    rw [hcast]
    omega
  have hge : (0:ℤ) ≤ -(r : ℤ) + 2 ^ w * 1 := by
    rw [hcast]
    omega
  rw [Int.emod_eq_of_lt hge hlt]
  ring

/-- Closed form of `as_decimal` for in-range values: the two's-complement
decode of the raw bit pattern. -/
theorem FixedIntInstance.as_decimal_eq (x : FixedIntInstance)
    (hx : InRange x) (hw : 0 < x.ty.SIZE) :
    x.as_decimal =
      if x.ty.SIGNED = true ∧ 2 ^ (x.ty.SIZE - 1) ≤ x.raw then
        (x.raw : ℤ) - 2 ^ x.ty.SIZE
      else
        (x.raw : ℤ) := by
  rw [FixedIntInstance.as_decimal_def]
  rcases hs : x.ty.SIGNED with _ | _
  · simp [hs]
  · simp only [hs, Bool.true_eq_false, if_false, true_and]
    have hiff : Nat.land x.raw (2 ^ (x.ty.SIZE - 1)) ≠ 0 ↔ 2 ^ (x.ty.SIZE - 1) ≤ x.raw := by
      rw [land_two_pow_ne_zero_iff]
      exact testBit_msb_iff x.ty.SIZE x.raw hw hx
    by_cases hmsb : 2 ^ (x.ty.SIZE - 1) ≤ x.raw
    · rw [if_pos (hiff.mpr hmsb), if_pos hmsb]
      have hpos : 0 < x.raw := lt_of_lt_of_le (Nat.pos_pow_of_pos _ (by norm_num)) hmsb
      rw [emod_neg_of_msb x.ty.SIZE x.raw hpos hx]
      have hnn : (((2:ℤ) ^ x.ty.SIZE - (x.raw : ℤ)).toNat : ℤ)
          = ((2:ℤ) ^ x.ty.SIZE - (x.raw : ℤ)) := by
        apply Int.toNat_of_nonneg
        have hxi : ((x.raw : ℤ)) < 2 ^ x.ty.SIZE := by exact_mod_cast hx
        omega
      rw [hnn]
      ring
    · rw [if_neg (fun h => hmsb (hiff.mp h)), if_neg hmsb]

/-- `as_decimal` is always congruent to the raw bit pattern modulo
`2 ^ SIZE` (with no range assumption at all). -/
theorem FixedIntInstance.as_decimal_modeq (x : FixedIntInstance) :
    Int.ModEq (2 ^ x.ty.SIZE) x.as_decimal (x.raw : ℤ) := by
  rw [FixedIntInstance.as_decimal_def]
  by_cases hs : x.ty.SIGNED = false
  · simp [hs]
  · rw [if_neg hs]
    by_cases hmsb : Nat.land x.raw (2 ^ (x.ty.SIZE - 1)) ≠ 0
    · rw [if_pos hmsb]
      have hM : (0:ℤ) < 2 ^ x.ty.SIZE := by positivity
      have hcoe : ((((-(x.raw : ℤ)) % 2 ^ x.ty.SIZE).toNat : ℤ))
          = (-(x.raw : ℤ)) % 2 ^ x.ty.SIZE :=
        Int.toNat_of_nonneg (Int.emod_nonneg _ (by omega))
      rw [hcoe]
      have h1 : Int.ModEq (2 ^ x.ty.SIZE) ((-(x.raw : ℤ)) % 2 ^ x.ty.SIZE) (-(x.raw : ℤ)) :=
        Int.emod_emod_of_dvd _ dvd_rfl
      have h2 := h1.neg
      simpa using h2
    · rw [if_neg hmsb]

/-- A non-negative decoded value is the raw pattern itself. -/
theorem FixedIntInstance.as_decimal_nonneg_eq_raw (x : FixedIntInstance)
    (hx : InRange x) (hw : 0 < x.ty.SIZE) (h : 0 ≤ x.as_decimal) :
    x.as_decimal = (x.raw : ℤ) := by
  rw [FixedIntInstance.as_decimal_eq x hx hw] at *
  by_cases hc : x.ty.SIGNED = true ∧ 2 ^ (x.ty.SIZE - 1) ≤ x.raw
  · rw [if_pos hc] at h ⊢
    have hxi : ((x.raw : ℤ)) < 2 ^ x.ty.SIZE := by exact_mod_cast hx
    omega
  · rw [if_neg hc]

/-! ### The claims -/

/-- C1: for every type and every integer input, construction stores
`raw = input mod 2^width`, a non-negative integer below `2^width`
(non-negativity is by type: `raw : ℕ`); the same range invariant holds
for the result of every arithmetic operation (each constructs its result
through `__new__`), and construction is total, never failing on
out-of-range input. -/
theorem claim_raw_invariant (cls : FixedIntTy) (v : ℤ) (x y : FixedIntInstance) :
    ((FixedIntInstance.new cls v).raw : ℤ) = v % 2 ^ cls.SIZE
    ∧ (FixedIntInstance.new cls v).raw < 2 ^ cls.SIZE
    ∧ InRange (x.add y) ∧ InRange (x.sub y) ∧ InRange (x.mul y)
    ∧ InRange (x.truediv y) ∧ InRange (x.floordiv y) ∧ InRange (x.mod y)
    ∧ InRange x.neg ∧ InRange x.abs :=
  ⟨FixedIntInstance.new_raw_coe cls v, FixedIntInstance.new_inRange cls v,
    FixedIntInstance.new_inRange x.ty _, FixedIntInstance.new_inRange x.ty _,
    FixedIntInstance.new_inRange x.ty _, FixedIntInstance.new_inRange x.ty _,
    FixedIntInstance.new_inRange x.ty _, FixedIntInstance.new_inRange x.ty _,
    FixedIntInstance.new_inRange x.ty _, FixedIntInstance.new_inRange x.ty _⟩

/-- C2: `as_decimal` returns `raw` unchanged when the type is unsigned or
when bit `width-1` of `raw` is clear, and returns `raw - 2^width` when the
type is signed and that bit is set; in particular `Int8(200)` decodes to
`-56` and `Int8(-300)` to `-44`. -/
theorem claim_as_decimal_decode (x : FixedIntInstance)
    (hx : InRange x) (hw : 0 < x.ty.SIZE) :
    (x.ty.SIGNED = false → x.as_decimal = (x.raw : ℤ))
    ∧ (x.raw.testBit (x.ty.SIZE - 1) = false → x.as_decimal = (x.raw : ℤ))
    ∧ (x.ty.SIGNED = true → x.raw.testBit (x.ty.SIZE - 1) = true →
        x.as_decimal = (x.raw : ℤ) - 2 ^ x.ty.SIZE)
    ∧ (FixedIntInstance.new Int8ty 200).as_decimal = -56
    ∧ (FixedIntInstance.new Int8ty (-300)).as_decimal = -44 := by
  rw [FixedIntInstance.as_decimal_eq x hx hw]
  have hbit := testBit_msb_iff x.ty.SIZE x.raw hw hx
  refine ⟨?_, ?_, ?_, by decide, by decide⟩
  · intro hs
    rw [if_neg]
    rintro ⟨hs', -⟩
    rw [hs] at hs'
    exact Bool.false_ne_true hs'
  · intro hb
    rw [if_neg]
    rintro ⟨-, hmsb⟩
    rw [hbit.mpr hmsb] at hb
    simp at hb
  · intro hs hb
    rw [if_pos ⟨hs, hbit.mp hb⟩]

/-- C2, instantiated at `Int8(200)` (witness). -/
theorem claim_as_decimal_decode_witness :
    (FixedIntInstance.new Int8ty 200).as_decimal = -56 :=
  (claim_as_decimal_decode (FixedIntInstance.new Int8ty 200)
    (by decide) (by decide)).2.2.2.1

/-- C3 counterexample: `UInt12(0) + Int8(-1)` has raw `255` (the sum of
the raw patterns `0` and `255`, masked), not
`(0 + (-1)) mod 2^12 = 4095`: the operation is computed on the operands'
raw stored values, not on their decoded decimal values. -/
theorem claim_fixed_ops_decimal_counterexample :
    ¬ ((((FixedIntInstance.new UInt12ty 0).add (FixedIntInstance.new Int8ty (-1))).raw : ℤ)
        = ((FixedIntInstance.new UInt12ty 0).as_decimal
            + (FixedIntInstance.new Int8ty (-1)).as_decimal)
          % 2 ^ (FixedIntInstance.new UInt12ty 0).ty.SIZE) := by decide

/-- C3 amended: `L op R` (op among add, subtract, multiply) is a value of
`L`'s exact type whose raw is `(L.raw op R.raw) mod 2^(L's width)`,
computed on the stored raw patterns; this coincides with the decimal-based
result `(L.as_decimal() op R.as_decimal()) mod 2^(L's width)` whenever the
right operand's width is at least the left's (in particular whenever the
operands have the same type), e.g. `Int8(100) + Int8(150)` has type `Int8`
and decimal value `-6`; for a right operand narrower than the left with
negative decoded value the two computations differ. -/
theorem claim_fixed_ops_raw_based (L R : FixedIntInstance) :
    (L.add R).ty = L.ty ∧ (L.sub R).ty = L.ty ∧ (L.mul R).ty = L.ty
    ∧ ((L.add R).raw : ℤ) = ((L.raw : ℤ) + (R.raw : ℤ)) % 2 ^ L.ty.SIZE
    ∧ ((L.sub R).raw : ℤ) = ((L.raw : ℤ) - (R.raw : ℤ)) % 2 ^ L.ty.SIZE
    ∧ ((L.mul R).raw : ℤ) = ((L.raw : ℤ) * (R.raw : ℤ)) % 2 ^ L.ty.SIZE
    ∧ (L.ty.SIZE ≤ R.ty.SIZE →
        ((L.add R).raw : ℤ) = (L.as_decimal + R.as_decimal) % 2 ^ L.ty.SIZE
        ∧ ((L.sub R).raw : ℤ) = (L.as_decimal - R.as_decimal) % 2 ^ L.ty.SIZE
        ∧ ((L.mul R).raw : ℤ) = (L.as_decimal * R.as_decimal) % 2 ^ L.ty.SIZE)
    ∧ ((FixedIntInstance.new Int8ty 100).add (FixedIntInstance.new Int8ty 150)).ty = Int8ty
    ∧ ((FixedIntInstance.new Int8ty 100).add
        (FixedIntInstance.new Int8ty 150)).as_decimal = -6 := by
  refine ⟨rfl, rfl, rfl,
    FixedIntInstance.new_raw_coe L.ty _,
    FixedIntInstance.new_raw_coe L.ty _,
    FixedIntInstance.new_raw_coe L.ty _,
    ?_, rfl, by decide⟩
  intro h
  have hL := L.as_decimal_modeq
  have hR : Int.ModEq (2 ^ L.ty.SIZE) R.as_decimal (R.raw : ℤ) :=
    (R.as_decimal_modeq).of_dvd (pow_dvd_pow 2 h)
  refine ⟨?_, ?_, ?_⟩
  · have h1 : ((L.add R).raw : ℤ) = ((L.raw : ℤ) + (R.raw : ℤ)) % 2 ^ L.ty.SIZE :=
      FixedIntInstance.new_raw_coe L.ty _
    have h2 : (L.as_decimal + R.as_decimal) % 2 ^ L.ty.SIZE
        = ((L.raw : ℤ) + (R.raw : ℤ)) % 2 ^ L.ty.SIZE := hL.add hR
    rw [h1, h2]
  · have h1 : ((L.sub R).raw : ℤ) = ((L.raw : ℤ) - (R.raw : ℤ)) % 2 ^ L.ty.SIZE :=
      FixedIntInstance.new_raw_coe L.ty _
    have h2 : (L.as_decimal - R.as_decimal) % 2 ^ L.ty.SIZE
        = ((L.raw : ℤ) - (R.raw : ℤ)) % 2 ^ L.ty.SIZE := hL.sub hR
    rw [h1, h2]
  · have h1 : ((L.mul R).raw : ℤ) = ((L.raw : ℤ) * (R.raw : ℤ)) % 2 ^ L.ty.SIZE :=
      FixedIntInstance.new_raw_coe L.ty _
    have h2 : (L.as_decimal * R.as_decimal) % 2 ^ L.ty.SIZE
        = ((L.raw : ℤ) * (R.raw : ℤ)) % 2 ^ L.ty.SIZE := hL.mul hR
    rw [h1, h2]

/-- C3 amended, instantiated at `Int8(100)` and `Int8(150)` (witness). -/
theorem claim_fixed_ops_raw_based_witness :
    (((FixedIntInstance.new Int8ty 100).add (FixedIntInstance.new Int8ty 150)).raw : ℤ)
      = ((FixedIntInstance.new Int8ty 100).as_decimal
          + (FixedIntInstance.new Int8ty 150).as_decimal)
        % 2 ^ (FixedIntInstance.new Int8ty 100).ty.SIZE :=
  ((claim_fixed_ops_raw_based (FixedIntInstance.new Int8ty 100)
    (FixedIntInstance.new Int8ty 150)).2.2.2.2.2.2.1 (by decide)).1

/-- C5: for a fixed left operand, each arithmetic operator returns a value
of the left operand's exact type, truncated into its width (for add,
subtract and multiply the truncated value also equals the decimal-based
result modulo `2^width`); for a plain-integer left operand, the reflected
operators return a plain unbounded integer computed with no truncation at
all — the left operand alone decides whether the result is bounded. -/
theorem claim_left_operand_decides (F : FixedIntInstance) (n : ℤ) :
    ((F.addInt n).ty = F.ty ∧ InRange (F.addInt n)
      ∧ ((F.addInt n).raw : ℤ) = (F.as_decimal + n) % 2 ^ F.ty.SIZE
      ∧ F.radd n = n + (F.raw : ℤ))
    ∧ ((F.subInt n).ty = F.ty ∧ InRange (F.subInt n)
      ∧ ((F.subInt n).raw : ℤ) = (F.as_decimal - n) % 2 ^ F.ty.SIZE
      ∧ F.rsub n = n - (F.raw : ℤ))
    ∧ ((F.mulInt n).ty = F.ty ∧ InRange (F.mulInt n)
      ∧ ((F.mulInt n).raw : ℤ) = (F.as_decimal * n) % 2 ^ F.ty.SIZE
      ∧ F.rmul n = n * (F.raw : ℤ))
    ∧ ((F.floordivInt n).ty = F.ty ∧ InRange (F.floordivInt n)
      ∧ ((F.floordivInt n).raw : ℤ) = (Int.fdiv (F.raw : ℤ) n) % 2 ^ F.ty.SIZE
      ∧ F.rfloordiv n = Int.fdiv n (F.raw : ℤ))
    ∧ ((F.modInt n).ty = F.ty ∧ InRange (F.modInt n)
      ∧ ((F.modInt n).raw : ℤ) = (Int.fmod (F.raw : ℤ) n) % 2 ^ F.ty.SIZE
      ∧ F.rmod n = Int.fmod n (F.raw : ℤ)) := by
  have hdec := F.as_decimal_modeq
  have hn : Int.ModEq (2 ^ F.ty.SIZE) n n := Int.ModEq.refl n
  refine ⟨⟨rfl, FixedIntInstance.new_inRange F.ty _, ?_, rfl⟩,
    ⟨rfl, FixedIntInstance.new_inRange F.ty _, ?_, rfl⟩,
    ⟨rfl, FixedIntInstance.new_inRange F.ty _, ?_, rfl⟩,
    ⟨rfl, FixedIntInstance.new_inRange F.ty _,
      FixedIntInstance.new_raw_coe F.ty _, rfl⟩,
    ⟨rfl, FixedIntInstance.new_inRange F.ty _,
      FixedIntInstance.new_raw_coe F.ty _, rfl⟩⟩
  · have h1 : ((F.addInt n).raw : ℤ) = ((F.raw : ℤ) + n) % 2 ^ F.ty.SIZE :=
      FixedIntInstance.new_raw_coe F.ty _
    have h2 : (F.as_decimal + n) % 2 ^ F.ty.SIZE
        = ((F.raw : ℤ) + n) % 2 ^ F.ty.SIZE := hdec.add hn
    rw [h1, h2]
  · have h1 : ((F.subInt n).raw : ℤ) = ((F.raw : ℤ) - n) % 2 ^ F.ty.SIZE :=
      FixedIntInstance.new_raw_coe F.ty _
    have h2 : (F.as_decimal - n) % 2 ^ F.ty.SIZE
        = ((F.raw : ℤ) - n) % 2 ^ F.ty.SIZE := hdec.sub hn
    rw [h1, h2]
  · have h1 : ((F.mulInt n).raw : ℤ) = ((F.raw : ℤ) * n) % 2 ^ F.ty.SIZE :=
      FixedIntInstance.new_raw_coe F.ty _
    have h2 : (F.as_decimal * n) % 2 ^ F.ty.SIZE
        = ((F.raw : ℤ) * n) % 2 ^ F.ty.SIZE := hdec.mul hn
    rw [h1, h2]

/-- C6 counterexample: `abs(Int8(-5))` decodes to `-5`, not `5`: the
source takes `abs(self.real)` and `self.real` is the non-negative raw
pattern, so absolute value does not act on the decoded decimal value. -/
theorem claim_abs_decimal_counterexample :
    ¬ (((FixedIntInstance.new Int8ty (-5)).abs).as_decimal
        = |(FixedIntInstance.new Int8ty (-5)).as_decimal|) := by decide

/-- C6 amended: `abs` rebuilds the value from `abs(raw)`, and `raw` is
already non-negative, so `abs` is the identity on every in-range value
(in particular the minimum signed value maps to itself); its decoded
result equals the decimal absolute value exactly when the decoded value
is non-negative. -/
theorem claim_abs_identity (x : FixedIntInstance) (hx : InRange x) :
    x.abs.ty = x.ty ∧ x.abs = x
    ∧ (0 ≤ x.as_decimal → x.abs.as_decimal = |x.as_decimal|) := by
  have habs : x.abs = x := by
    show FixedIntInstance.new x.ty |(x.raw : ℤ)| = x
    have h1 : |(x.raw : ℤ)| = (x.raw : ℤ) := abs_of_nonneg (by positivity)
    rw [FixedIntInstance.new_def, h1]
    have hxi : ((x.raw : ℤ)) < 2 ^ x.ty.SIZE := by
      have hcast : ((2:ℤ)) ^ x.ty.SIZE = ((2 ^ x.ty.SIZE : ℕ) : ℤ) := by push_cast; ring
      rw [hcast]
      exact_mod_cast hx
    rw [Int.emod_eq_of_lt (by positivity) hxi]
    cases x with
    | mk ty raw => simp
  refine ⟨by rw [habs], habs, ?_⟩
  intro hnn
  rw [habs, abs_of_nonneg hnn]

/-- C6 amended, instantiated (witness). -/
theorem claim_abs_identity_witness :
    (FixedIntInstance.new Int8ty 5).abs.ty = Int8ty
    ∧ (FixedIntInstance.new Int8ty 5).abs = FixedIntInstance.new Int8ty 5
    ∧ (0 ≤ (FixedIntInstance.new Int8ty 5).as_decimal →
        (FixedIntInstance.new Int8ty 5).abs.as_decimal
          = |(FixedIntInstance.new Int8ty 5).as_decimal|) :=
  claim_abs_identity (FixedIntInstance.new Int8ty 5) (by decide)

/-- C4 counterexample: `Int8(-7) // Int8(2)` decodes to `124` (floor
division of the raw patterns `249 // 2`), not to `-4 = floor(-7 / 2)`;
and `Int8(7) % Int8(-3)` decodes to `7` (raw `7 % 253`), not to `-2`
(the floor-style remainder of the decoded values, which would carry the
divisor's sign): both operations are computed on the raw stored values,
not on the decoded decimal values. -/
theorem claim_floordiv_mod_decimal_counterexample :
    ¬ (((((FixedIntInstance.new Int8ty (-7)).floordiv (FixedIntInstance.new Int8ty 2)).raw : ℤ)
          = (Int.fdiv (FixedIntInstance.new Int8ty (-7)).as_decimal
              (FixedIntInstance.new Int8ty 2).as_decimal)
            % 2 ^ (FixedIntInstance.new Int8ty (-7)).ty.SIZE)
        ∧ ((((FixedIntInstance.new Int8ty 7).mod (FixedIntInstance.new Int8ty (-3))).raw : ℤ)
          = (Int.fmod (FixedIntInstance.new Int8ty 7).as_decimal
              (FixedIntInstance.new Int8ty (-3)).as_decimal)
            % 2 ^ (FixedIntInstance.new Int8ty 7).ty.SIZE)) := by decide

/-- C4 amended: floor-divide computes `L.raw // R.raw` and modulo computes
`L.raw % R.raw` on the (non-negative) raw stored patterns, each truncated
into the left operand's type; this coincides with the floor semantics on
the decoded decimal values exactly in the regime where decoded value and
raw pattern agree, i.e. when both decoded values are non-negative (with a
positive divisor). -/
theorem claim_floordiv_mod_raw_based (L R : FixedIntInstance) :
    (L.floordiv R).ty = L.ty ∧ (L.mod R).ty = L.ty
    ∧ ((L.floordiv R).raw : ℤ) = (Int.fdiv (L.raw : ℤ) (R.raw : ℤ)) % 2 ^ L.ty.SIZE
    ∧ ((L.mod R).raw : ℤ) = (Int.fmod (L.raw : ℤ) (R.raw : ℤ)) % 2 ^ L.ty.SIZE
    ∧ (InRange L → InRange R → 0 < L.ty.SIZE → 0 < R.ty.SIZE →
        0 ≤ L.as_decimal → 0 < R.as_decimal →
        ((L.floordiv R).raw : ℤ)
            = (Int.fdiv L.as_decimal R.as_decimal) % 2 ^ L.ty.SIZE
        ∧ ((L.mod R).raw : ℤ)
            = (Int.fmod L.as_decimal R.as_decimal) % 2 ^ L.ty.SIZE) := by
  refine ⟨rfl, rfl,
    FixedIntInstance.new_raw_coe L.ty _,
    FixedIntInstance.new_raw_coe L.ty _, ?_⟩
  intro hL hR hwL hwR hLd hRd
  rw [FixedIntInstance.as_decimal_nonneg_eq_raw L hL hwL hLd,
    FixedIntInstance.as_decimal_nonneg_eq_raw R hR hwR (le_of_lt hRd)]
  exact ⟨FixedIntInstance.new_raw_coe L.ty _, FixedIntInstance.new_raw_coe L.ty _⟩

/-- C4 amended, instantiated at `Int8(88)` and `Int8(20)` (witness). -/
theorem claim_floordiv_mod_raw_based_witness :
    (((FixedIntInstance.new Int8ty 88).floordiv (FixedIntInstance.new Int8ty 20)).raw : ℤ)
        = (Int.fdiv (FixedIntInstance.new Int8ty 88).as_decimal
            (FixedIntInstance.new Int8ty 20).as_decimal)
          % 2 ^ (FixedIntInstance.new Int8ty 88).ty.SIZE
    ∧ (((FixedIntInstance.new Int8ty 88).mod (FixedIntInstance.new Int8ty 20)).raw : ℤ)
        = (Int.fmod (FixedIntInstance.new Int8ty 88).as_decimal
            (FixedIntInstance.new Int8ty 20).as_decimal)
          % 2 ^ (FixedIntInstance.new Int8ty 88).ty.SIZE :=
  (claim_floordiv_mod_raw_based (FixedIntInstance.new Int8ty 88)
      (FixedIntInstance.new Int8ty 20)).2.2.2.2
    (by decide) (by decide) (by decide) (by decide) (by decide) (by decide)

/-! ### Negation -/

/-- The raw pattern after `__neg__`: two's-complement negation. -/
theorem FixedIntInstance.neg_raw (x : FixedIntInstance) (hx : InRange x) :
    x.neg.raw = if x.raw = 0 then 0 else 2 ^ x.ty.SIZE - x.raw := by
  have hz : ((x.neg).raw : ℤ) = ((-(x.raw : ℤ) - 1) + 1) % 2 ^ x.ty.SIZE :=
    FixedIntInstance.new_raw_coe x.ty _
  have harg : ((-(x.raw : ℤ) - 1) + 1) = -(x.raw : ℤ) := by ring
  rw [harg] at hz
  have hcast : ((2:ℤ)) ^ x.ty.SIZE = ((2 ^ x.ty.SIZE : ℕ) : ℤ) := by push_cast; ring
  by_cases h0 : x.raw = 0
  · rw [if_pos h0]
    rw [h0] at hz
    simp at hz
    omega
  · rw [if_neg h0]
    rw [emod_neg_of_msb x.ty.SIZE x.raw (Nat.pos_of_ne_zero h0) hx] at hz
    rw [hcast] at hz
    omega

/-- Decoded behaviour of `__neg__` on signed values: decimal negation,
except that the minimum decoded value is a fixed point. -/
theorem FixedIntInstance.neg_as_decimal_signed (x : FixedIntInstance)
    (hx : InRange x) (hw : 0 < x.ty.SIZE) (hs : x.ty.SIGNED = true) :
    (x.as_decimal ≠ -(2 ^ (x.ty.SIZE - 1) : ℤ) → x.neg.as_decimal = -x.as_decimal)
    ∧ (x.as_decimal = -(2 ^ (x.ty.SIZE - 1) : ℤ) → x.neg.as_decimal = x.as_decimal) := by
  have hxneg : InRange x.neg := FixedIntInstance.new_inRange x.ty _
  have hty : x.neg.ty = x.ty := rfl
  have hdecx := FixedIntInstance.as_decimal_eq x hx hw
  have hdecn := FixedIntInstance.as_decimal_eq x.neg hxneg hw
  have hraw' := FixedIntInstance.neg_raw x hx
  rw [hty] at hdecn
  rw [hs] at hdecx hdecn
  simp only [eq_self_iff_true, true_and] at hdecx hdecn
  have hpow : 2 ^ (x.ty.SIZE - 1) * 2 = 2 ^ x.ty.SIZE := by
    rw [← pow_succ]
    congr 1
    omega
  have hp1 : 0 < 2 ^ (x.ty.SIZE - 1) := Nat.pos_pow_of_pos _ (by norm_num)
  have hcast : ((2:ℤ)) ^ x.ty.SIZE = ((2 ^ x.ty.SIZE : ℕ) : ℤ) := by push_cast; ring
  have hcast1 : ((2:ℤ)) ^ (x.ty.SIZE - 1) = ((2 ^ (x.ty.SIZE - 1) : ℕ) : ℤ) := by
    push_cast; ring
  simp only [hcast] at hdecx hdecn
  constructor
  · intro hne
    rw [hdecx] at hne
    simp only [hcast1] at hne
    rw [hdecn, hdecx]
    by_cases h0 : x.raw = 0
    · have hr0 : x.neg.raw = 0 := by rw [hraw', if_pos h0]
      rw [hr0]
      rw [if_neg (show ¬(2 ^ (x.ty.SIZE - 1) ≤ (0:ℕ)) by omega),
        if_neg (show ¬(2 ^ (x.ty.SIZE - 1) ≤ x.raw) by omega)]
      rw [h0]
      simp
    · have hrn : x.neg.raw = 2 ^ x.ty.SIZE - x.raw := by rw [hraw', if_neg h0]
      rw [hrn]
      by_cases hm : 2 ^ (x.ty.SIZE - 1) ≤ x.raw
      · rw [if_pos hm] at hne
        by_cases he : x.raw = 2 ^ (x.ty.SIZE - 1)
        · exfalso
          apply hne
          omega
        · rw [if_neg (show ¬(2 ^ (x.ty.SIZE - 1) ≤ 2 ^ x.ty.SIZE - x.raw) by omega),
            if_pos hm]
          have hxlt : x.raw < 2 ^ x.ty.SIZE := hx
          omega
      · rw [if_pos (show 2 ^ (x.ty.SIZE - 1) ≤ 2 ^ x.ty.SIZE - x.raw by omega),
          if_neg hm]
        have hxlt : x.raw < 2 ^ x.ty.SIZE := hx
        omega
  · intro hmin
    rw [hdecx] at hmin
    simp only [hcast1] at hmin
    rw [hdecn, hdecx]
    by_cases h0 : x.raw = 0
    · exfalso
      rw [if_neg (show ¬(2 ^ (x.ty.SIZE - 1) ≤ x.raw) by omega)] at hmin
      omega
    · have hrn : x.neg.raw = 2 ^ x.ty.SIZE - x.raw := by rw [hraw', if_neg h0]
      rw [hrn]
      by_cases hm : 2 ^ (x.ty.SIZE - 1) ≤ x.raw
      · rw [if_pos hm] at hmin
        have he : x.raw = 2 ^ (x.ty.SIZE - 1) := by omega
        rw [if_pos (show 2 ^ (x.ty.SIZE - 1) ≤ 2 ^ x.ty.SIZE - x.raw by omega),
          if_pos hm]
        omega
      · exfalso
        rw [if_neg hm] at hmin
        omega

/-- C7 counterexample: the claim's decode property quantifies over every
fixed-width value, but for the unsigned value `UInt8(5)` negation decodes
to `251`, not `-5`, and `UInt8(5)` is not a minimum signed value. -/
theorem claim_neg_decimal_counterexample :
    ¬ ((FixedIntInstance.new UInt8ty 5).neg.as_decimal
        = -((FixedIntInstance.new UInt8ty 5).as_decimal)) := by decide

/-- C7 amended: negation returns a value of the same type with raw
`(~raw + 1) mod 2^width = (2^width - raw) mod 2^width`; on SIGNED types
the decoded result is `-x.as_decimal()` for every value except the
minimum signed value `-(2^(width-1))`, which negates to itself (for 8-bit
signed, `-Int8(-128) == -128`, a wraparound, not an error); on unsigned
types the decoded result is `(2^width - raw) mod 2^width`, which differs
from `-x.as_decimal()` whenever `raw` is non-zero. -/
theorem claim_neg_twos_complement (x : FixedIntInstance)
    (hx : InRange x) (hw : 0 < x.ty.SIZE) :
    x.neg.ty = x.ty
    ∧ ((x.neg).raw : ℤ) = (2 ^ x.ty.SIZE - (x.raw : ℤ)) % 2 ^ x.ty.SIZE
    ∧ (x.ty.SIGNED = true →
        (x.as_decimal ≠ calculate_min_value x.ty.SIZE x.ty.SIGNED →
          x.neg.as_decimal = -x.as_decimal)
        ∧ (x.as_decimal = calculate_min_value x.ty.SIZE x.ty.SIGNED →
          x.neg.as_decimal = x.as_decimal))
    ∧ (FixedIntInstance.new Int8ty (-128)).neg.as_decimal = -128 := by
  refine ⟨rfl, ?_, ?_, by decide⟩
  · have h1 : ((x.neg).raw : ℤ) = ((-(x.raw : ℤ) - 1) + 1) % 2 ^ x.ty.SIZE :=
      FixedIntInstance.new_raw_coe x.ty _
    have harg : ((-(x.raw : ℤ) - 1) + 1) = -(x.raw : ℤ) := by ring
    rw [harg] at h1
    rw [h1]
    have h2 : (2 ^ x.ty.SIZE - (x.raw : ℤ)) % 2 ^ x.ty.SIZE
        = (-(x.raw : ℤ) + 2 ^ x.ty.SIZE * 1) % 2 ^ x.ty.SIZE := by
      congr 1
      ring
    rw [h2, Int.add_mul_emod_self_left]
  · intro hs
    have hmin : calculate_min_value x.ty.SIZE x.ty.SIGNED
        = -(2 ^ (x.ty.SIZE - 1) : ℤ) := by
      rw [hs]
      unfold calculate_min_value
      simp
    rw [hmin]
    exact FixedIntInstance.neg_as_decimal_signed x hx hw hs

/-- C7 amended, instantiated at `Int8(-128)` (witness). -/
theorem claim_neg_twos_complement_witness :
    (FixedIntInstance.new Int8ty (-128)).neg.ty = Int8ty
    ∧ (((FixedIntInstance.new Int8ty (-128)).neg).raw : ℤ)
        = (2 ^ (FixedIntInstance.new Int8ty (-128)).ty.SIZE
            - ((FixedIntInstance.new Int8ty (-128)).raw : ℤ))
          % 2 ^ (FixedIntInstance.new Int8ty (-128)).ty.SIZE :=
  let h := claim_neg_twos_complement (FixedIntInstance.new Int8ty (-128))
    (by decide) (by decide)
  ⟨h.1, h.2.1⟩

example : (FixedIntInstance.new Int8ty 200).as_decimal = -56 := by decide
example : (FixedIntInstance.new Int8ty (-300)).as_decimal = -44 := by decide
example : ((FixedIntInstance.new Int8ty 100).add (FixedIntInstance.new Int8ty 150)).as_decimal = -6 := by decide
example : (FixedIntInstance.new Int8ty (-128)).neg.as_decimal = -128 := by decide
example : ((FixedIntInstance.new Int8ty (-5)).abs).as_decimal = -5 := by decide
example : ((FixedIntInstance.new UInt12ty 0).add (FixedIntInstance.new Int8ty (-1))).as_decimal = 255 := by decide
example : ((FixedIntInstance.new Int8ty (-7)).floordiv (FixedIntInstance.new Int8ty 2)).as_decimal = 124 := by decide
example : (FixedIntInstance.new UInt8ty 5).neg.as_decimal = 251 := by decide
example : FixedInt (.intVal 8) true [] = some (Int8ty, [((8, true), Int8ty)]) := by decide
example : FixedInt (.floatVal (43/10)) true [] = none := by decide

/-! ### The type registry -/

theorem get_class_add_same (classes : Classes) (c : FixedIntTy) :
    get_class (add_class classes c) c.SIZE c.SIGNED = some c := by
  unfold get_class add_class
  rw [List.find?_cons_of_pos _ (by simp)]
  rfl

theorem get_class_add_other (classes : Classes) (c : FixedIntTy)
    (sz : ℕ) (sg : Bool) (h : (sz, sg) ≠ (c.SIZE, c.SIGNED)) :
    get_class (add_class classes c) sz sg = get_class classes sz sg := by
  unfold get_class add_class
  rw [List.find?_cons_of_neg _ (by simp; intro h1 h2; exact h (by rw [h1, h2]))]

theorem get_class_wf (classes : Classes) (hwf : ClassesWF classes)
    (sz : ℕ) (sg : Bool) (c : FixedIntTy)
    (h : get_class classes sz sg = some c) : c.SIZE = sz ∧ c.SIGNED = sg := by
  unfold get_class at h
  cases hf : List.find? (fun kv => decide (kv.1 = (sz, sg))) classes with
  | none => rw [hf] at h; cases h
  | some kv =>
    rw [hf] at h
    have hk : kv.2 = c := by
      simpa using h
    have hp : kv.1 = (sz, sg) := by
      have := List.find?_some hf
      simpa using this
    have hmem := List.mem_of_find?_eq_some hf
    have hwfkv := hwf kv hmem
    rw [hk] at hwfkv
    rw [hwfkv] at hp
    exact ⟨(Prod.mk.injEq _ _ _ _ ▸ hp).1, (Prod.mk.injEq _ _ _ _ ▸ hp).2⟩

theorem add_class_wf (classes : Classes) (c : FixedIntTy)
    (hwf : ClassesWF classes) : ClassesWF (add_class classes c) := by
  intro kv hmem
  rcases List.mem_cons.mp hmem with h | h
  · rw [h]
  · exact hwf kv h

/-- Reduction of the factory on a positive integer width: the guard
passes and the result only depends on the cache lookup. -/
theorem FixedInt_intVal_pos (n : ℤ) (hn : 0 < n) (signed : Bool)
    (classes : Classes) :
    FixedInt (.intVal n) signed classes =
      match get_class classes n.toNat signed with
      | some cls => some (cls, classes)
      | none =>
        some (FixedIntInstance_class n.toNat signed,
          add_class classes (FixedIntInstance_class n.toNat signed)) := by
  have hP : (PyScalar.intVal n).isinstance_int = true
      ∧ 0 < (PyScalar.intVal n).toRat :=
    ⟨rfl, by show (0:ℚ) < (n:ℚ); exact_mod_cast hn⟩
  have hsz : (PyScalar.intVal n).toRat.num.toNat = n.toNat := by
    show ((n:ℚ)).num.toNat = n.toNat
    rw [Rat.num_intCast]
  unfold FixedInt
  rw [if_neg (not_not_intro hP), hsz]

/-- C8: for every positive width and signedness, the factory returns one
descriptor and interns it: a second request against the resulting cache
returns the identical stored descriptor and leaves the cache unchanged; a
cached descriptor is returned as-is (lazy creation, cache unchanged);
entries for other keys are never removed; every value constructed from
the descriptor carries exactly that descriptor as its type; and under the
cache well-formedness invariant (which the factory preserves) the
descriptor's key matches the request. -/
theorem claim_type_interning (n : ℤ) (hn : 0 < n) (signed : Bool)
    (classes : Classes) :
    ∃ cls classes2,
      FixedInt (.intVal n) signed classes = some (cls, classes2)
      ∧ FixedInt (.intVal n) signed classes2 = some (cls, classes2)
      ∧ get_class classes2 n.toNat signed = some cls
      ∧ (∀ c, get_class classes n.toNat signed = some c →
          cls = c ∧ classes2 = classes)
      ∧ (∀ sz sg, (sz, sg) ≠ (n.toNat, signed) →
          get_class classes2 sz sg = get_class classes sz sg)
      ∧ (∀ v : ℤ, (FixedIntInstance.new cls v).ty = cls)
      ∧ (ClassesWF classes →
          ClassesWF classes2 ∧ cls.SIZE = n.toNat ∧ cls.SIGNED = signed) := by
  cases hgc : get_class classes n.toNat signed with
  | some c =>
    refine ⟨c, classes, ?_, ?_, hgc, ?_, ?_, ?_, ?_⟩
    · rw [FixedInt_intVal_pos n hn signed classes, hgc]
    · rw [FixedInt_intVal_pos n hn signed classes, hgc]
    · intro c2 h2
      exact ⟨Option.some_injective _ h2, rfl⟩
    · intro sz sg _
      rfl
    · intro v
      rfl
    · intro hwf
      have hkey := get_class_wf classes hwf n.toNat signed c hgc
      exact ⟨hwf, hkey.1, hkey.2⟩
  | none =>
    have hg2 : get_class (add_class classes (FixedIntInstance_class n.toNat signed))
        n.toNat signed = some (FixedIntInstance_class n.toNat signed) :=
      get_class_add_same classes (FixedIntInstance_class n.toNat signed)
    refine ⟨FixedIntInstance_class n.toNat signed,
      add_class classes (FixedIntInstance_class n.toNat signed),
      ?_, ?_, hg2, ?_, ?_, ?_, ?_⟩
    · rw [FixedInt_intVal_pos n hn signed classes, hgc]
    · rw [FixedInt_intVal_pos n hn signed
        (add_class classes (FixedIntInstance_class n.toNat signed)), hg2]
    · intro c2 h2
      cases h2
    · intro sz sg hne
      exact get_class_add_other classes (FixedIntInstance_class n.toNat signed)
        sz sg hne
    · intro v
      rfl
    · intro hwf
      exact ⟨add_class_wf classes (FixedIntInstance_class n.toNat signed) hwf,
        rfl, rfl⟩

/-- C8, instantiated at width `36`, unsigned, empty cache (witness). -/
theorem claim_type_interning_witness :
    ∃ cls classes2,
      FixedInt (.intVal 36) false [] = some (cls, classes2)
      ∧ FixedInt (.intVal 36) false classes2 = some (cls, classes2)
      ∧ get_class classes2 (36 : ℤ).toNat false = some cls
      ∧ (∀ c, get_class [] (36 : ℤ).toNat false = some c →
          cls = c ∧ classes2 = [])
      ∧ (∀ sz sg, (sz, sg) ≠ ((36 : ℤ).toNat, false) →
          get_class classes2 sz sg = get_class [] sz sg)
      ∧ (∀ v : ℤ, (FixedIntInstance.new cls v).ty = cls)
      ∧ (ClassesWF [] →
          ClassesWF classes2 ∧ cls.SIZE = (36 : ℤ).toNat ∧ cls.SIGNED = false) :=
  claim_type_interning 36 (by decide) false []

/-- C9: the factory fails (Python `ValueError`, modelled as `none`) if and
only if the width argument is not a positive integer: it fails for zero,
negative and non-integer widths, and succeeds for every positive integer
width with either signedness. -/
theorem claim_invalid_width :
    (∀ (size : PyScalar) (signed : Bool) (classes : Classes),
      FixedInt size signed classes = none ↔ ¬ ∃ n : ℤ, size = .intVal n ∧ 0 < n)
    ∧ (∀ (signed : Bool) (classes : Classes),
        FixedInt (.intVal 0) signed classes = none)
    ∧ (∀ (signed : Bool) (classes : Classes),
        FixedInt (.intVal (-57)) signed classes = none)
    ∧ (∀ (signed : Bool) (classes : Classes),
        FixedInt (.floatVal (43/10)) signed classes = none) := by
  have hiff : ∀ (size : PyScalar) (signed : Bool) (classes : Classes),
      FixedInt size signed classes = none ↔ ¬ ∃ n : ℤ, size = .intVal n ∧ 0 < n := by
    intro size signed classes
    unfold FixedInt
    by_cases hP : size.isinstance_int = true ∧ 0 < size.toRat
    · rw [if_neg (not_not_intro hP)]
      constructor
      · intro h
        exfalso
        cases hgc : get_class classes size.toRat.num.toNat signed with
        | some c => rw [hgc] at h; cases h
        | none => rw [hgc] at h; cases h
      · intro hno
        exfalso
        apply hno
        cases size with
        | intVal m =>
          refine ⟨m, rfl, ?_⟩
          have h2 : (0:ℚ) < (m:ℚ) := hP.2
          exact_mod_cast h2
        | floatVal q =>
          exact absurd hP.1 (by simp [PyScalar.isinstance_int])
    · rw [if_pos hP]
      constructor
      · intro _
        rintro ⟨m, rfl, hm⟩
        exact hP ⟨rfl, by show (0:ℚ) < (m:ℚ); exact_mod_cast hm⟩
      · intro _
        rfl
  refine ⟨hiff, ?_, ?_, ?_⟩
  · intro signed classes
    refine (hiff _ signed classes).mpr ?_
    rintro ⟨m, hm, hpos⟩
    cases hm
    exact absurd hpos (by decide)
  · intro signed classes
    refine (hiff _ signed classes).mpr ?_
    rintro ⟨m, hm, hpos⟩
    cases hm
    exact absurd hpos (by decide)
  · intro signed classes
    refine (hiff _ signed classes).mpr ?_
    rintro ⟨m, hm, _⟩
    cases hm
